import Mathlib

/-!
Verification of the `lock` higher-order function of `func-kit`
(`src/utils/hof/lock.ts`) against its specification.

The lock wraps an asynchronous function so that `beginLock()` pauses and
`endLock()` resumes execution of wrapped calls, with a reentrant depth
counter mirrored in a `BehaviorSubject` and a serialized FIFO queue
(`queued`) underneath.  The development below is a shallow embedding:

* `LockValue` separates caller-supplied argument values from the
  module-private sentinel `NEVER_VALUE`;
* `waitForUnlock` embeds the unlock wait as a function over the trace of
  depth broadcasts;
* `executeFnBody` embeds the queued executor's body (sentinel check, then
  the real call);
* `QueueState` with `submit`/`finish`/`drain`/`queueClear`/`queueCancel`
  embeds the serialized queue as a step machine (the queue's own source is
  not part of the checked tree, so that machine is modelled from the spec
  of `queued`);
* `LockState` with `beginLock`/`endLock`/`callFn`/`clearLock`/`cancelLock`
  embeds the lock's mutable state and its methods.
-/

/-- Values flowing through a lock-wrapped function: either a caller-supplied
value (`userv`) or the module-private sentinel `NEVER_VALUE = Symbol('never')`
(`lock.ts` line 20).  The symbol is created inside the module and never
exported, so only the lock itself can place `neverValue` in an argument
list. -/
inductive LockValue (α : Type) where
  | userv : α → LockValue α
  | neverValue : LockValue α
  deriving DecidableEq, Repr

/-- Modelled from the spec: the repository's `first` helper
(`src/utils/math/first`, whose source is not under the checked tree) is the
"first element accessor over an argument list" consumed by the lock; it
yields the first element of the list when one exists. -/
def first {β : Type} (args : List β) : Option β :=
  args.head?

/-- Recognises the `NEVER_VALUE` sentinel, as the identity comparison
`first(args) === NEVER_VALUE` does on `lock.ts` line 57. -/
def isNever {α : Type} : LockValue α → Bool
  | .neverValue => true
  | .userv _ => false

/-- The body of `executeFn` after its unlock wait has resolved (`lock.ts`
lines 55-61): `if (first(args) === NEVER_VALUE) return null as never;
return await promise(...args)`.  `none` stands for the `null` returned on
the sentinel branch without invoking `promise`; `some` wraps the real
function's resolved value. -/
def executeFnBody {α ρ : Type} (promise : List (LockValue α) → ρ)
    (args : List (LockValue α)) : Option ρ :=
  if (first args).any isNever then none else some (promise args)

/-- Shallow embedding of `waitForUnlock` (`lock.ts` lines 37-46).  `d` is
`lockSubject.data` at the handler's first, synchronous check; `ds` are the
values carried by the subsequent `next` broadcasts of the subject (Modelled
from the spec: `BehaviorSubject`, whose source is not under the checked
tree, retains the last pushed value in `data`, and `once` delivers exactly
the next broadcast).  The result counts how many broadcasts the wait
consumed before its promise resolved — each consumed broadcast is one
re-subscription via `lockSubject.once(handler)` — and is `none` when the
wait is still pending after all of `ds`. -/
def waitForUnlock (d : Int) (ds : List Int) : Option Nat :=
  if d = 0 then some 0
  else
    match ds with
    | [] => none
    | d' :: rest => (waitForUnlock d' rest).map (· + 1)

/-- One action on the lock's depth counter. -/
inductive LockOp where
  | beginOp : LockOp
  | endOp : LockOp
  deriving DecidableEq, Repr

/-- Effect of one action on `lockCount`: `beginLock` performs
`lockCount += 1` (`lock.ts` line 103) and `endLock` performs
`lockCount = Math.max(lockCount - 1, 0)` (`lock.ts` line 114). -/
def applyOp (n : Int) : LockOp → Int
  | .beginOp => n + 1
  | .endOp => max (n - 1) 0

/-- The depth counter after a sequence of `beginLock`/`endLock` calls,
starting from `n`. -/
def runOps (n : Int) (ops : List LockOp) : Int :=
  ops.foldl applyOp n

/-- One invocation pushed through the serialized queue: a submission
identifier (ids are handed out in submission order) and its argument
list. -/
structure Call (α : Type) where
  id : Nat
  args : List (LockValue α)
  deriving DecidableEq, Repr

/-- How one queue entry's promise settles: with the wrapped operation's
value, or with the dedicated cancellation marker `CANCELED_SYMBOL`. -/
inductive QueueResult (ρ : Type) where
  | value : ρ → QueueResult ρ
  | canceledSymbol : QueueResult ρ
  deriving DecidableEq, Repr

/-- Modelled from the spec: the state of a `SerializedQueue` (`queued`,
whose source is not under the checked tree): one optional in-flight entry,
a FIFO of pending not-yet-started entries, the completion log `done`
(entry id paired with how its promise settled, in completion order), and
`started` (ids whose body was actually invoked, in start order). -/
structure QueueState (α ρ : Type) where
  running : Option (Call α)
  pending : List (Call α)
  done : List (Nat × QueueResult ρ)
  started : List Nat
  deriving DecidableEq, Repr

/-- The empty queue. -/
def initQueue {α ρ : Type} : QueueState α ρ :=
  { running := none, pending := [], done := [], started := [] }

/-- Modelled from the spec: submitting a call to the queue — "a call either
starts immediately (queue empty and nothing running) or appends and waits
its turn". -/
def submit {α ρ : Type} (c : Call α) (q : QueueState α ρ) : QueueState α ρ :=
  match q.running with
  | none => { q with running := some c, started := q.started ++ [c.id] }
  | some _ => { q with pending := q.pending ++ [c] }

/-- Modelled from the spec: completion of the in-flight entry — its promise
settles with the wrapped operation `g` applied to its arguments, and "on
completion of the running call, the next queued entry starts". -/
def finish {α ρ : Type} (g : List (LockValue α) → ρ) (q : QueueState α ρ) :
    QueueState α ρ :=
  match q.running with
  | none => q
  | some c =>
    match q.pending with
    | [] =>
      { running := none, pending := [],
        done := q.done ++ [(c.id, QueueResult.value (g c.args))],
        started := q.started }
    | c' :: rest =>
      { running := some c', pending := rest,
        done := q.done ++ [(c.id, QueueResult.value (g c.args))],
        started := q.started ++ [c'.id] }

/-- Modelled from the spec: `clear()` on the queue "drains not-yet-started
entries, resolving each with a dedicated cancellation marker value instead
of invoking the wrapped function" — the in-flight entry is untouched. -/
def queueClear {α ρ : Type} (q : QueueState α ρ) : QueueState α ρ :=
  { q with pending := [],
           done := q.done ++ q.pending.map (fun c => (c.id, QueueResult.canceledSymbol)) }

/-- Modelled from the spec: `cancel()` on the queue "additionally discards
delivery of the in-flight result" after clearing. -/
def queueCancel {α ρ : Type} (q : QueueState α ρ) : QueueState α ρ :=
  { queueClear q with running := none }

/-- Runs `finish` a fixed number of times. -/
def drainN {α ρ : Type} (g : List (LockValue α) → ρ) :
    Nat → QueueState α ρ → QueueState α ρ
  | 0, q => q
  | n + 1, q => drainN g n (finish g q)

/-- Runs the queue to completion once nothing blocks it any more (for the
lock: once the depth counter is back at `0`): enough `finish` steps to
settle the in-flight entry and every pending one. -/
def drain {α ρ : Type} (g : List (LockValue α) → ρ) (q : QueueState α ρ) :
    QueueState α ρ :=
  drainN g (q.pending.length + 1) q

/-- All entries currently owned by the queue: the in-flight one, then the
pending ones in FIFO order. -/
def entries {α ρ : Type} (q : QueueState α ρ) : List (Call α) :=
  q.running.toList ++ q.pending

/-- The queue's structural invariant: when nothing is in flight, nothing is
pending (submission starts a call immediately whenever the queue is
idle). -/
def QueueInv {α ρ : Type} (q : QueueState α ρ) : Prop :=
  q.running = none → q.pending = []

/-- Submitting a list of calls in order. -/
def submitAll {α ρ : Type} (cs : List (Call α)) (q : QueueState α ρ) :
    QueueState α ρ :=
  cs.foldl (fun q c => submit c q) q

/-- The lock's `BehaviorSubject` broadcast object: its current value
(`data`, mirroring `lockCount`) and a generation number identifying the
object itself — `clear()` installs a fresh object, bumping `gen`. -/
structure SubjectState where
  data : Int
  gen : Nat
  deriving DecidableEq, Repr

/-- The mutable state owned by one `lock(promise)` wrapper (`lock.ts`
lines 28-31): the depth counter `lockCount`, the `lockSubject` broadcast,
the serialized queue behind `executeFn`, and the next submission id. -/
structure LockState (α ρ : Type) where
  lockCount : Int
  subject : SubjectState
  queue : QueueState α ρ
  nextId : Nat
  deriving DecidableEq, Repr

/-- The state right after `lock(promise)` returns: `lockCount = 0`, a fresh
subject seeded with `0`, an empty queue. -/
def initLock {α ρ : Type} : LockState α ρ :=
  { lockCount := 0, subject := { data := 0, gen := 0 }, queue := initQueue,
    nextId := 0 }

/-- `wrappedFn.beginLock` (`lock.ts` lines 102-105): `lockCount += 1;
lockSubject.next(lockCount)`. -/
def beginLock {α ρ : Type} (s : LockState α ρ) : LockState α ρ :=
  { s with lockCount := s.lockCount + 1,
           subject := { s.subject with data := s.lockCount + 1 } }

/-- `wrappedFn.endLock` (`lock.ts` lines 113-117):
`lockCount = Math.max(lockCount - 1, 0); lockSubject.next(lockCount);
await executeFn(NEVER_VALUE)` — the decremented depth is broadcast and one
sentinel call is pushed through the same serialized queue; the promise
`endLock` returns is that entry's completion. -/
def endLock {α ρ : Type} (s : LockState α ρ) : LockState α ρ :=
  { s with lockCount := max (s.lockCount - 1) 0,
           subject := { s.subject with data := max (s.lockCount - 1) 0 },
           queue := submit { id := s.nextId, args := [LockValue.neverValue] } s.queue,
           nextId := s.nextId + 1 }

/-- An external call of the wrapped function (`lock.ts` lines 68-70): it
funnels the caller-supplied arguments through the serialized queue. -/
def callFn {α ρ : Type} (args : List α) (s : LockState α ρ) : LockState α ρ :=
  { s with queue := submit { id := s.nextId, args := args.map LockValue.userv } s.queue,
           nextId := s.nextId + 1 }

/-- A sequence of external calls of the wrapped function, in submission
order. -/
def callAll {α ρ : Type} (argss : List (List α)) (s : LockState α ρ) :
    LockState α ρ :=
  argss.foldl (fun s a => callFn a s) s

/-- `wrappedFn.clear` (`lock.ts` lines 77-82): `lockSubject.next(0);
lockCount = 0; lockSubject = new BehaviorSubject(lockCount);
executeFn.clear()` — the depth counter is reset, the broadcast object is
replaced by a fresh one, and the queue is cleared. -/
def clearLock {α ρ : Type} (s : LockState α ρ) : LockState α ρ :=
  { lockCount := 0,
    subject := { data := 0, gen := s.subject.gen + 1 },
    queue := queueClear s.queue,
    nextId := s.nextId }

/-- `wrappedFn.cancel` (`lock.ts` lines 91-94): `wrappedFn.clear();
executeFn.cancel()`. -/
def cancelLock {α ρ : Type} (s : LockState α ρ) : LockState α ρ :=
  { clearLock s with queue := queueCancel (clearLock s).queue }

/-- The queue entries that calling the wrapped function on each argument
list of `argss` submits, with ids handed out from `n`. -/
def callsFrom {α : Type} (n : Nat) : List (List α) → List (Call α)
  | [] => []
  | a :: rest =>
    { id := n, args := a.map LockValue.userv } :: callsFrom (n + 1) rest

/-- The expected completion log of those calls: each settles, in submission
order, with the real function's result on its own arguments. -/
def userResults {α ρ : Type} (promise : List (LockValue α) → ρ) (n : Nat) :
    List (List α) → List (Nat × QueueResult (Option ρ))
  | [] => []
  | a :: rest =>
    (n, QueueResult.value (some (promise (a.map LockValue.userv))))
      :: userResults promise (n + 1) rest

/-- A sample queue with one in-flight call and three pending calls. -/
def sampleQueue : QueueState Nat Nat :=
  { running := some { id := 0, args := [LockValue.userv 5] },
    pending := [{ id := 1, args := [LockValue.userv 6] },
                { id := 2, args := [LockValue.userv 7] },
                { id := 3, args := [LockValue.userv 8] }],
    done := [], started := [0] }

theorem foldl_beginOp (N : Nat) (n : Int) :
    List.foldl applyOp n (List.replicate N LockOp.beginOp) = n + N := by
  induction N generalizing n with
  | zero => simp
  | succ k ih =>
    rw [List.replicate_succ, List.foldl_cons, ih]
    simp [applyOp]
    ring

theorem foldl_endOp (M : Nat) (n : Int) (h : 0 ≤ n) :
    List.foldl applyOp n (List.replicate M LockOp.endOp) = max (n - M) 0 := by
  induction M generalizing n with
  | zero => simp; omega
  | succ k ih =>
    rw [List.replicate_succ, List.foldl_cons]
    have h0 : (0 : Int) ≤ max (n - 1) 0 := le_max_right _ _
    rw [show applyOp n LockOp.endOp = max (n - 1) 0 from rfl, ih _ h0]
    push_cast
    omega

/-- C3: the depth counter is reentrant and clamped at zero: `beginLock`
increments it by one; `endLock` decrements it by one while it is positive
and leaves it at `0` when it is already `0`; and `N` `beginLock` calls
followed by `M` `endLock` calls leave the counter at `max (N - M) 0`, so
exactly `N` matching `endLock` calls bring it back to `0` and fewer leave
it positive. -/
theorem c3_depth_reentrant_clamped (N M : Nat) :
    (∀ n : Int, applyOp n LockOp.beginOp = n + 1) ∧
    (∀ n : Int, 0 < n → applyOp n LockOp.endOp = n - 1) ∧
    applyOp 0 LockOp.endOp = 0 ∧
    runOps 0 (List.replicate N LockOp.beginOp ++ List.replicate M LockOp.endOp)
      = max ((N : Int) - (M : Int)) 0 ∧
    runOps 0 (List.replicate N LockOp.beginOp ++ List.replicate N LockOp.endOp) = 0 ∧
    (M < N →
      0 < runOps 0 (List.replicate N LockOp.beginOp ++ List.replicate M LockOp.endOp)) := by
  have key : ∀ K : Nat,
      runOps 0 (List.replicate N LockOp.beginOp ++ List.replicate K LockOp.endOp)
        = max ((N : Int) - (K : Int)) 0 := by
    intro K
    rw [runOps, List.foldl_append, foldl_beginOp, foldl_endOp]
    · omega
    · omega
  refine ⟨fun n => rfl, ?_, ?_, key M, ?_, ?_⟩
  · intro n hn
    show max (n - 1) 0 = n - 1
    omega
  · show max ((0 : Int) - 1) 0 = 0
    omega
  · rw [key N]; omega
  · intro hMN
    rw [key M]
    omega

/-- Witness for C3 at `N = 2`, `M = 1`. -/
theorem c3_depth_reentrant_clamped_witness :
    (0 : Int) < 2 ∧ 1 < 2 ∧
    applyOp 2 LockOp.endOp = 1 ∧
    0 < runOps 0 (List.replicate 2 LockOp.beginOp ++ List.replicate 1 LockOp.endOp) ∧
    runOps 0 (List.replicate 2 LockOp.beginOp ++ List.replicate 2 LockOp.endOp) = 0 :=
  ⟨by decide, by decide,
    (c3_depth_reentrant_clamped 2 1).2.1 2 (by decide),
    (c3_depth_reentrant_clamped 2 1).2.2.2.2.2 (by decide),
    (c3_depth_reentrant_clamped 2 2).2.2.2.2.1⟩

/-- C9: a call made while the depth counter is `0` has its unlock wait
resolve on the handler's first synchronous check of `lockSubject.data`,
consuming zero broadcasts — it never subscribes to the depth broadcast,
whatever broadcasts would follow; no depth-change notification is needed
for the body to run. -/
theorem c9_unlocked_immediate (ds : List Int) : waitForUnlock 0 ds = some 0 := by
  rw [waitForUnlock.eq_def]
  simp

/-- C2: whenever the unlock wait resolves after consuming `k` broadcasts,
the depth value it observed at resolution is exactly `0`, and every depth
value it observed before that (the initial synchronous read and each
broadcast it re-subscribed for) was nonzero — so while the depth is
positive the wrapped body never gets to run, the pending wait re-subscribes
to the depth broadcast on every depth change, and the body runs only once
the depth is exactly `0`. -/
theorem c2_no_body_while_locked (d : Int) (ds : List Int) (k : Nat)
    (h : waitForUnlock d ds = some k) :
    (d :: ds).get? k = some 0 ∧
    ∀ i, i < k → ∀ v, (d :: ds).get? i = some v → v ≠ 0 := by
  induction ds generalizing d k with
  | nil =>
    by_cases hd : d = 0
    · subst hd
      simp [waitForUnlock] at h
      subst h
      exact ⟨rfl, by omega⟩
    · simp [waitForUnlock, hd] at h
  | cons d' rest ih =>
    by_cases hd : d = 0
    · subst hd
      simp [waitForUnlock] at h
      subst h
      exact ⟨rfl, by omega⟩
    · rw [waitForUnlock, if_neg hd] at h
      cases hw : waitForUnlock d' rest with
      | none => rw [hw] at h; simp at h
      | some m =>
        rw [hw] at h
        simp at h
        subst h
        obtain ⟨h1, h2⟩ := ih d' m hw
        refine ⟨h1, ?_⟩
        intro i hi v hv
        cases i with
        | zero =>
          simp [List.get?] at hv
          subst hv
          exact hd
        | succ j =>
          exact h2 j (by omega) v hv

/-- Witness for C2: starting depth `2`, broadcasts `[1, 0]`, the wait
resolves after consuming both broadcasts. -/
theorem c2_no_body_while_locked_witness :
    waitForUnlock 2 [1, 0] = some 2 ∧
    (((2 : Int) :: [1, 0]).get? 2 = some 0 ∧
      ∀ i, i < 2 → ∀ v, ((2 : Int) :: [1, 0]).get? i = some v → v ≠ 0) :=
  ⟨by decide, c2_no_body_while_locked 2 [1, 0] 2 (by decide)⟩

/-- C10: the sentinel branch of the queued executor is unreachable from
outside the module: an argument list built only from caller-supplied values
never contains the module-private `NEVER_VALUE` (in particular it is not
the first element), so on every such argument list the wrapped user
function is invoked and its value returned. -/
theorem c10_sentinel_unreachable {α ρ : Type} (promise : List (LockValue α) → ρ)
    (xs : List α) :
    executeFnBody promise (xs.map LockValue.userv)
      = some (promise (xs.map LockValue.userv)) ∧
    LockValue.neverValue ∉ xs.map LockValue.userv := by
  constructor
  · cases xs with
    | nil => simp [executeFnBody, first]
    | cons x xs => simp [executeFnBody, first, isNever]
  · simp [List.mem_map]

theorem submit_entries {α ρ : Type} (c : Call α) (q : QueueState α ρ)
    (h : QueueInv q) : entries (submit c q) = entries q ++ [c] := by
  cases hr : q.running with
  | none => simp [entries, submit, hr, h hr]
  | some r => simp [entries, submit, hr]

theorem drainN_idle {α ρ : Type} (g : List (LockValue α) → ρ) (n : Nat)
    (q : QueueState α ρ) (h : q.running = none) : drainN g n q = q := by
  induction n with
  | zero => rfl
  | succ k ih => rw [drainN, finish, h, ih]

theorem drainN_succ {α ρ : Type} (g : List (LockValue α) → ρ) (n : Nat)
    (q : QueueState α ρ) : drainN g (n + 1) q = drainN g n (finish g q) := rfl

theorem drainN_run {α ρ : Type} (g : List (LockValue α) → ρ) :
    ∀ (rest : List (Call α)) (c : Call α) (qd : List (Nat × QueueResult ρ))
      (qs : List Nat),
      drainN g (rest.length + 1)
          { running := some c, pending := rest, done := qd, started := qs } =
        { running := none, pending := [],
          done := qd ++ (c :: rest).map (fun c => (c.id, QueueResult.value (g c.args))),
          started := qs ++ rest.map Call.id } := by
  intro rest
  induction rest with
  | nil =>
    intro c qd qs
    rw [drainN_succ]
    simp [drainN, finish]
  | cons c' rest' ih =>
    intro c qd qs
    rw [drainN_succ]
    show drainN g (c' :: rest').length
        (finish g { running := some c, pending := c' :: rest', done := qd, started := qs }) = _
    rw [show finish g { running := some c, pending := c' :: rest', done := qd, started := qs }
        = { running := some c', pending := rest',
            done := qd ++ [(c.id, QueueResult.value (g c.args))],
            started := qs ++ [c'.id] } from rfl]
    rw [List.length_cons, ih c' _ _]
    simp

theorem submitAll_busy {α ρ : Type} :
    ∀ (cs : List (Call α)) (r : Call α) (qp : List (Call α))
      (qd : List (Nat × QueueResult ρ)) (qs : List Nat),
      submitAll cs { running := some r, pending := qp, done := qd, started := qs } =
        { running := some r, pending := qp ++ cs, done := qd, started := qs } := by
  intro cs
  induction cs with
  | nil => intro r qp qd qs; simp [submitAll]
  | cons c cs' ih =>
    intro r qp qd qs
    show submitAll cs'
        (submit c { running := some r, pending := qp, done := qd, started := qs }) = _
    rw [show submit c { running := some r, pending := qp, done := qd, started := qs }
        = ({ running := some r, pending := qp ++ [c], done := qd, started := qs }
            : QueueState α ρ) from rfl]
    rw [ih]
    simp

theorem submitAll_init {α ρ : Type} (c : Call α) (cs : List (Call α)) :
    submitAll (c :: cs) (initQueue : QueueState α ρ) =
      { running := some c, pending := cs, done := [], started := [c.id] } := by
  show submitAll cs (submit c (initQueue : QueueState α ρ)) = _
  rw [show submit c (initQueue : QueueState α ρ)
      = { running := some c, pending := [], done := [], started := [c.id] } from rfl]
  rw [submitAll_busy]
  simp

theorem drain_submitAll {α ρ : Type} (g : List (LockValue α) → ρ) :
    ∀ cs : List (Call α),
      drain g (submitAll cs (initQueue : QueueState α ρ)) =
        { running := none, pending := [],
          done := cs.map (fun c => (c.id, QueueResult.value (g c.args))),
          started := cs.map Call.id } := by
  intro cs
  cases cs with
  | nil => rfl
  | cons c cs' =>
    rw [submitAll_init, drain]
    show drainN g (cs'.length + 1) _ = _
    rw [drainN_run g cs' c [] [c.id]]
    simp

theorem executeFnBody_user {α ρ : Type} (promise : List (LockValue α) → ρ)
    (xs : List α) :
    executeFnBody promise (xs.map LockValue.userv)
      = some (promise (xs.map LockValue.userv)) := by
  cases xs with
  | nil => simp [executeFnBody, first]
  | cons x xs => simp [executeFnBody, first, isNever]

theorem executeFnBody_sentinel {α ρ : Type} (promise : List (LockValue α) → ρ)
    (rest : List (LockValue α)) :
    executeFnBody promise (LockValue.neverValue :: rest) = none := by
  simp [executeFnBody, first, isNever]

theorem callsFrom_results {α ρ : Type} (promise : List (LockValue α) → ρ) :
    ∀ (argss : List (List α)) (n : Nat),
      (callsFrom n argss).map
          (fun c => (c.id, QueueResult.value (executeFnBody promise c.args)))
        = userResults promise n argss := by
  intro argss
  induction argss with
  | nil => intro n; rfl
  | cons a rest ih =>
    intro n
    simp [callsFrom, userResults, ih, executeFnBody_user]

theorem callsFrom_ids {α : Type} :
    ∀ (argss : List (List α)) (n : Nat),
      (callsFrom n argss).map Call.id = List.range' n argss.length := by
  intro argss
  induction argss with
  | nil => intro n; rfl
  | cons a rest ih =>
    intro n
    simp [callsFrom, List.range'_succ, ih]

theorem entries_submitAll_init {α ρ : Type} :
    ∀ cs : List (Call α),
      entries (submitAll cs (initQueue : QueueState α ρ)) = cs := by
  intro cs
  cases cs with
  | nil => rfl
  | cons c cs' => rw [submitAll_init]; rfl

theorem callAll_queue {α ρ : Type} :
    ∀ (argss : List (List α)) (s : LockState α ρ),
      callAll argss s =
        { s with queue := submitAll (callsFrom s.nextId argss) s.queue,
                 nextId := s.nextId + argss.length } := by
  intro argss
  induction argss with
  | nil => intro s; simp [callAll, callsFrom, submitAll]
  | cons a rest ih =>
    intro s
    show callAll rest (callFn a s) = _
    rw [ih]
    simp only [callFn, callsFrom]
    have hq : submitAll (callsFrom (s.nextId + 1) rest)
        (submit { id := s.nextId, args := a.map LockValue.userv } s.queue) =
      submitAll ({ id := s.nextId, args := a.map LockValue.userv }
        :: callsFrom (s.nextId + 1) rest) s.queue := rfl
    have hn : s.nextId + 1 + rest.length = s.nextId + (a :: rest).length := by
      simp [List.length_cons]
      omega
    rw [hq, hn]

theorem submit_submitAll {α ρ : Type} (c : Call α) (cs : List (Call α))
    (q : QueueState α ρ) :
    submit c (submitAll cs q) = submitAll (cs ++ [c]) q := by
  rw [submitAll, submitAll, List.foldl_append]
  rfl

/-- C1: in the scenario `beginLock()`, then any calls of the wrapped
function (all pending), then `endLock()`, the depth is back at `0` and the
completion log of the queue, once it runs, is the pending calls settling in
order — each with the real function's result on its own arguments — and
only then the sentinel entry whose completion is the promise `endLock()`
returned.  So `endLock()` resolves only after every call already in the
queue (in particular `wrappedFn(42)`) has had its body execute and its
promise settle with the real function's result: a synchronization
barrier. -/
theorem c1_endLock_barrier {α ρ : Type} (promise : List (LockValue α) → ρ)
    (argss : List (List α)) :
    (endLock (callAll argss (beginLock (initLock : LockState α (Option ρ))))).lockCount = 0 ∧
    (drain (executeFnBody promise)
        (endLock (callAll argss (beginLock (initLock : LockState α (Option ρ))))).queue).done
      = userResults promise 0 argss ++ [(argss.length, QueueResult.value none)] := by
  have hb : beginLock (initLock : LockState α (Option ρ))
      = { lockCount := 1, subject := { data := 1, gen := 0 }, queue := initQueue,
          nextId := 0 } := by
    simp [beginLock, initLock]
  rw [hb, callAll_queue]
  simp only [endLock]
  constructor
  · norm_num
  · rw [submit_submitAll, drain_submitAll]
    simp [List.map_append, callsFrom_results, executeFnBody_sentinel]

/-- C4: calls of the wrapped function submitted while the lock is held
accumulate in the serialized queue in submission order (ids `0, 1, …` in
order), and once the depth clears the queue runs them strictly in that FIFO
submission order: the bodies start in id order and the completion log is
the submission-ordered list of each call's real result — no priority
reordering. -/
theorem c4_fifo_order {α ρ : Type} (promise : List (LockValue α) → ρ)
    (argss : List (List α)) :
    entries (submitAll (callsFrom 0 argss) (initQueue : QueueState α (Option ρ)))
      = callsFrom 0 argss ∧
    (drain (executeFnBody promise)
        (submitAll (callsFrom 0 argss) (initQueue : QueueState α (Option ρ)))).done
      = userResults promise 0 argss ∧
    (drain (executeFnBody promise)
        (submitAll (callsFrom 0 argss) (initQueue : QueueState α (Option ρ)))).started
      = (callsFrom 0 argss).map Call.id ∧
    (callsFrom 0 argss).map Call.id = List.range argss.length := by
  refine ⟨entries_submitAll_init _, ?_, ?_, ?_⟩
  · rw [drain_submitAll]
    simp [callsFrom_results]
  · rw [drain_submitAll]
  · rw [callsFrom_ids, List.range_eq_range']

/-- C5: `endLock()` pushes exactly one extra entry through the same
serialized queue, carrying the sentinel as its single argument; the queued
executor detects that entry by applying the first-element accessor to the
argument list and comparing with the sentinel, and on detection it settles
with `null` without invoking the wrapped user function. -/
theorem c5_endLock_sentinel_noop {α ρ : Type} (promise : List (LockValue α) → ρ)
    (s : LockState α (Option ρ)) (h : QueueInv s.queue) :
    entries (endLock s).queue
      = entries s.queue ++ [{ id := s.nextId, args := [LockValue.neverValue] }] ∧
    first ([LockValue.neverValue] : List (LockValue α)) = some LockValue.neverValue ∧
    executeFnBody promise [LockValue.neverValue] = none ∧
    ∀ args : List (LockValue α),
      first args = some LockValue.neverValue → executeFnBody promise args = none := by
  refine ⟨?_, rfl, executeFnBody_sentinel promise [], ?_⟩
  · show entries (submit { id := s.nextId, args := [LockValue.neverValue] } s.queue)
      = _
    exact submit_entries _ _ h
  · intro args hargs
    simp [executeFnBody, hargs, isNever]

/-- Witness for C5 at the freshly created lock. -/
theorem c5_endLock_sentinel_noop_witness :
    QueueInv (initLock : LockState Nat (Option Nat)).queue ∧
    (entries (endLock (initLock : LockState Nat (Option Nat))).queue
        = entries (initLock : LockState Nat (Option Nat)).queue
          ++ [{ id := 0, args := [LockValue.neverValue] }] ∧
      first ([LockValue.neverValue] : List (LockValue Nat)) = some LockValue.neverValue ∧
      executeFnBody (fun args : List (LockValue Nat) => args.length)
          ([LockValue.neverValue] : List (LockValue Nat)) = none ∧
      ∀ args : List (LockValue Nat),
        first args = some LockValue.neverValue →
          executeFnBody (fun args : List (LockValue Nat) => args.length) args = none) :=
  ⟨fun _ => rfl,
    c5_endLock_sentinel_noop (fun args => args.length) initLock (fun _ => rfl)⟩

/-- C6: `clear()` resets the depth counter to `0`, replaces the
`BehaviorSubject` broadcast object with a fresh one (seeded at `0`), and
clears the serialized queue (dropping the pending entries, which settle
with the cancellation marker, while the in-flight entry is untouched);
`cancel()` yields exactly `clear()`'s state plus cancellation of the
queue's in-flight delivery. -/
theorem c6_clear_cancel {α ρ : Type} (s : LockState α ρ) :
    (clearLock s).lockCount = 0 ∧
    (clearLock s).subject.data = 0 ∧
    (clearLock s).subject.gen = s.subject.gen + 1 ∧
    (clearLock s).queue.pending = [] ∧
    (clearLock s).queue.running = s.queue.running ∧
    (clearLock s).queue.done
      = s.queue.done ++ s.queue.pending.map (fun c => (c.id, QueueResult.canceledSymbol)) ∧
    (cancelLock s).lockCount = 0 ∧
    (cancelLock s).subject = (clearLock s).subject ∧
    (cancelLock s).queue.pending = [] ∧
    (cancelLock s).queue.running = none ∧
    (cancelLock s).queue.done = (clearLock s).queue.done := by
  refine ⟨rfl, rfl, rfl, rfl, rfl, rfl, rfl, rfl, rfl, rfl, ?_⟩
  simp [cancelLock, clearLock, queueCancel, queueClear]

/-- C7: `clear()` on a serialized queue with pending not-yet-started calls
settles each of them, in order, with the dedicated cancellation marker,
invokes no body for them (the start log is unchanged and they are gone from
the queue), and leaves the in-flight call in place — which then still
completes normally, settling with the wrapped operation's real result. -/
theorem c7_queue_clear_cancels_pending {α ρ : Type}
    (g : List (LockValue α) → ρ) (q : QueueState α ρ) (r : Call α)
    (h : q.running = some r) :
    (queueClear q).done
      = q.done ++ q.pending.map (fun c => (c.id, QueueResult.canceledSymbol)) ∧
    (queueClear q).started = q.started ∧
    (queueClear q).pending = [] ∧
    (queueClear q).running = some r ∧
    (finish g (queueClear q)).done
      = (queueClear q).done ++ [(r.id, QueueResult.value (g r.args))] ∧
    (finish g (queueClear q)).running = none := by
  have hq : queueClear q
      = { running := some r, pending := [],
          done := q.done ++ q.pending.map (fun c => (c.id, QueueResult.canceledSymbol)),
          started := q.started } := by
    simp [queueClear, h]
  refine ⟨rfl, rfl, rfl, by rw [hq], ?_, ?_⟩
  · rw [hq]
    simp [finish]
  · rw [hq]
    simp [finish]

/-- Witness for C7: a queue with an in-flight call and three pending
calls. -/
theorem c7_queue_clear_cancels_pending_witness :
    sampleQueue.running = some { id := 0, args := [LockValue.userv 5] } ∧
    ((queueClear sampleQueue).done
        = sampleQueue.done
          ++ sampleQueue.pending.map (fun c => (c.id, QueueResult.canceledSymbol)) ∧
      (queueClear sampleQueue).started = sampleQueue.started ∧
      (queueClear sampleQueue).pending = [] ∧
      (queueClear sampleQueue).running = some { id := 0, args := [LockValue.userv 5] } ∧
      (finish (fun args => args.length) (queueClear sampleQueue)).done
        = (queueClear sampleQueue).done ++ [(0, QueueResult.value 1)] ∧
      (finish (fun args => args.length) (queueClear sampleQueue)).running = none) :=
  ⟨rfl, c7_queue_clear_cancels_pending (fun args => args.length) sampleQueue
    { id := 0, args := [LockValue.userv 5] } rfl⟩

/-- C8: an `endLock()` issued while the depth counter is already `0` leaves
the counter at `0` (the clamp) but still pushes the sentinel entry through
the serialized queue and awaits it, so even an unmatched `endLock()` is a
barrier: its completion comes only after every call queued before it has
completed, each with its real result. -/
theorem endLock_queue {α ρ : Type} (s : LockState α ρ) :
    (endLock s).queue
      = submit { id := s.nextId, args := [LockValue.neverValue] } s.queue := rfl

theorem endLock_lockCount {α ρ : Type} (s : LockState α ρ) :
    (endLock s).lockCount = max (s.lockCount - 1) 0 := rfl

theorem callAll_lockCount {α ρ : Type} (argss : List (List α)) (s : LockState α ρ) :
    (callAll argss s).lockCount = s.lockCount := by
  rw [callAll_queue]

theorem callAll_nextId {α ρ : Type} (argss : List (List α)) (s : LockState α ρ) :
    (callAll argss s).nextId = s.nextId + argss.length := by
  rw [callAll_queue]

theorem callAll_queueEq {α ρ : Type} (argss : List (List α)) (s : LockState α ρ) :
    (callAll argss s).queue = submitAll (callsFrom s.nextId argss) s.queue := by
  rw [callAll_queue]

theorem c8_endLock_at_zero_barrier {α ρ : Type} (promise : List (LockValue α) → ρ)
    (argss : List (List α)) :
    (callAll argss (initLock : LockState α (Option ρ))).lockCount = 0 ∧
    (endLock (callAll argss (initLock : LockState α (Option ρ)))).lockCount = 0 ∧
    entries (endLock (callAll argss (initLock : LockState α (Option ρ)))).queue
      = callsFrom 0 argss ++ [{ id := argss.length, args := [LockValue.neverValue] }] ∧
    (drain (executeFnBody promise)
        (endLock (callAll argss (initLock : LockState α (Option ρ)))).queue).done
      = userResults promise 0 argss ++ [(argss.length, QueueResult.value none)] := by
  refine ⟨?_, ?_, ?_, ?_⟩
  · rw [callAll_lockCount]
    exact rfl
  · rw [endLock_lockCount, callAll_lockCount]
    show max ((0 : Int) - 1) 0 = 0
    decide
  · rw [endLock_queue, callAll_queueEq, callAll_nextId]
    simp only [initLock, Nat.zero_add]
    rw [submit_submitAll, entries_submitAll_init]
  · rw [endLock_queue, callAll_queueEq, callAll_nextId]
    simp only [initLock, Nat.zero_add]
    rw [submit_submitAll, drain_submitAll]
    simp [List.map_append, callsFrom_results, executeFnBody_sentinel]
